import Mathlib

/-!
Verification of the dataflow propagation engine of `rul-checker`
(`src/analysis/flow_analysis.rs`): the per-block state store
(`IntroFlowContext` over `InOutPair`/`IOPairForGraph`), the per-block
working slice (`IcxSliceFroBlock`) with its constructors and
`taint_merge`, the derivation operations between store and slice, and
the environment-variable verbosity toggles.

Rust indexing (`v[i]`) panics out of range; every operation that indexes
is embedded as an `Option`-returning function that is `none` exactly when
the Rust code would panic.  `Vec<T>` is embedded as `List T`, and Rust's
`T::default()` as `Inhabited.default`.
-/

namespace FlowAnalysis

/-- Provenance labels carried by taint sets (opaque origin tags). -/
abbrev Label := Nat

/-- Modelled from the spec: the `Taint` type lives in the `ownership`
module, which is not part of the analysed source.  Per the spec's data
model, a taint is "a set of provenance labels (opaque origin tags)";
"untainted is the empty set"; merging is set union.  The backing
`HashSet` is embedded as a list without duplicates (`insert` is a no-op
on a present label), with set semantics read off through `toFinset`. -/
structure Taint where
  set : List Label
deriving DecidableEq

instance : Inhabited Taint := ⟨⟨[]⟩⟩

/-- Rust `Taint::is_untainted`: the taint set is empty. -/
def Taint.is_untainted (t : Taint) : Prop := t.set = []

instance (t : Taint) : Decidable t.is_untainted :=
  inferInstanceAs (Decidable (t.set = []))

/-- Rust `Taint::insert`: add one provenance label to the set (no duplicate
when already present, as for a `HashSet`). -/
def Taint.insert (t : Taint) (x : Label) : Taint := ⟨t.set.insert x⟩

/-- The Rust loop `for elem in another { self.insert(elem) }`, folded over
the other set's element list. -/
def Taint.insertAll (t : Taint) (l : List Label) : Taint :=
  l.foldl Taint.insert t

/-- Modelled from the spec: `IntroVar` lives in the `ownership` module,
not part of the analysed source.  Per the spec it is "an opaque label
assigned when a variable is first created", with a synthetic default
identity (here `none`). -/
abbrev IntroVar := Option Nat

/-- Modelled from the spec: `TyWithIndex` lives in the type-analysis
module, not part of the analysed source.  Per the spec the symbolic type
fact is "an index into a catalog of structural ownership layouts", with a
default value (here `none`). -/
abbrev TyWithIndex := Option Nat

/-- Per-field ownership tag of an ownership layout (spec data model:
unique / shared / borrowed / irrelevant). -/
inductive OwnershipTag where
  | unique
  | shared
  | borrowed
  | irrelevant
deriving DecidableEq

/-- Modelled from the spec: `OwnershipLayout` lives in the type-analysis
module, not part of the analysed source.  Per the spec it is "an ordered
sequence of per-field ownership tags"; `Vec::new()` is the empty
sequence. -/
abbrev OwnershipLayout := List OwnershipTag

/-- Rust `InOutPair<T>`: entry vector `i` and exit vector `o`, one slot per
local variable. -/
structure InOutPair (T : Type) where
  i : List T
  o : List T
deriving DecidableEq

instance (T : Type) : Inhabited (InOutPair T) := ⟨⟨[], []⟩⟩

/-- Rust `InOutPair::new(len)`: both vectors filled with `len` defaults. -/
def InOutPair.new (T : Type) [Inhabited T] (len : Nat) : InOutPair T :=
  ⟨List.replicate len default, List.replicate len default⟩

/-- Rust `IOPairForGraph<T>`: one `InOutPair` per basic block. -/
structure IOPairForGraph (T : Type) where
  pair_graph : List (InOutPair T)
deriving DecidableEq

instance (T : Type) : Inhabited (IOPairForGraph T) := ⟨⟨[]⟩⟩

/-- Rust `IOPairForGraph::new(b_len, v_len)`. -/
def IOPairForGraph.new (T : Type) [Inhabited T] (b_len v_len : Nat) :
    IOPairForGraph T :=
  ⟨List.replicate b_len (InOutPair.new T v_len)⟩

/-- The entry vector of block `b` (defaults to `[]` out of range; the
operations below never read out of range). -/
def IOPairForGraph.inAt {T : Type} (g : IOPairForGraph T) (b : Nat) : List T :=
  (g.pair_graph.getD b default).i

/-- The exit vector of block `b`. -/
def IOPairForGraph.outAt {T : Type} (g : IOPairForGraph T) (b : Nat) : List T :=
  (g.pair_graph.getD b default).o

/-- One fact-kind's share of `derive_from_pre_node`: entry vector of
block `t` becomes a clone of the exit vector of block `f`.  `none` when
either index is out of range (a Rust panic). -/
def IOPairForGraph.deriveIn {T : Type} (g : IOPairForGraph T) (f t : Nat) :
    Option (IOPairForGraph T) :=
  match g.pair_graph[f]?, g.pair_graph[t]? with
  | some pf, some pt => some ⟨g.pair_graph.set t { pt with i := pf.o }⟩
  | _, _ => none

/-- One fact-kind's share of `derive_from_icx_slice`: exit vector of
block `t` becomes `v`.  `none` when the index is out of range. -/
def IOPairForGraph.writeOut {T : Type} (g : IOPairForGraph T) (t : Nat)
    (v : List T) : Option (IOPairForGraph T) :=
  match g.pair_graph[t]? with
  | some pt => some ⟨g.pair_graph.set t { pt with o := v }⟩
  | none => none

/-- Rust `IntroFlowContext`: the five per-fact-kind stores. -/
structure IntroFlowContext where
  taint : IOPairForGraph Taint
  var : IOPairForGraph IntroVar
  len : IOPairForGraph Nat
  ty : IOPairForGraph TyWithIndex
  layout : IOPairForGraph OwnershipLayout
deriving DecidableEq

/-- Rust `IntroFlowContext::new(b_len, v_len)`. -/
def IntroFlowContext.new (b_len v_len : Nat) : IntroFlowContext where
  taint := IOPairForGraph.new Taint b_len v_len
  var := IOPairForGraph.new IntroVar b_len v_len
  len := IOPairForGraph.new Nat b_len v_len
  ty := IOPairForGraph.new TyWithIndex b_len v_len
  layout := IOPairForGraph.new OwnershipLayout b_len v_len

/-- Rust `IntroFlowContext::derive_from_pre_node(from, to)`: for each of the
five fact-kinds, the entry vector of block `t` becomes a clone of the
exit vector of block `f`. -/
def IntroFlowContext.derive_from_pre_node (icx : IntroFlowContext)
    (f t : Nat) : Option IntroFlowContext := do
  let taint2 ← icx.taint.deriveIn f t
  let var2 ← icx.var.deriveIn f t
  let len2 ← icx.len.deriveIn f t
  let ty2 ← icx.ty.deriveIn f t
  let layout2 ← icx.layout.deriveIn f t
  pure ⟨taint2, var2, len2, ty2, layout2⟩

/-- Rust `IcxSliceFroBlock`: the flattened working slice for one block. -/
structure IcxSliceFroBlock where
  taint : List Taint
  var : List IntroVar
  len : List Nat
  ty : List TyWithIndex
  layout : List OwnershipLayout
deriving DecidableEq

instance : Inhabited IcxSliceFroBlock := ⟨⟨[], [], [], [], []⟩⟩

/-- Rust `IntroFlowContext::derive_from_icx_slice(from, to)`: the five exit
vectors of block `t` are overwritten by the slice's five vectors. -/
def IntroFlowContext.derive_from_icx_slice (icx : IntroFlowContext)
    (s : IcxSliceFroBlock) (t : Nat) : Option IntroFlowContext := do
  let taint2 ← icx.taint.writeOut t s.taint
  let var2 ← icx.var.writeOut t s.var
  let len2 ← icx.len.writeOut t s.len
  let ty2 ← icx.ty.writeOut t s.ty
  let layout2 ← icx.layout.writeOut t s.layout
  pure ⟨taint2, var2, len2, ty2, layout2⟩

/-- Rust `IcxSliceFroBlock::new_in(icx, idx)`: clones the five entry vectors
of block `idx`.  The Rust function takes `&mut icx` and only clones, so
the pair returns (the owned slice, the store after the call). -/
def IcxSliceFroBlock.new_in (icx : IntroFlowContext) (idx : Nat) :
    Option (IcxSliceFroBlock × IntroFlowContext) :=
  match icx.taint.pair_graph[idx]?, icx.var.pair_graph[idx]?,
        icx.len.pair_graph[idx]?, icx.ty.pair_graph[idx]?,
        icx.layout.pair_graph[idx]? with
  | some a, some b, some c, some d, some e =>
      some (⟨a.i, b.i, c.i, d.i, e.i⟩, icx)
  | _, _, _, _, _ => none

/-- Rust `IcxSliceFroBlock::new_out(icx, idx)`: clones the five exit vectors
of block `idx`. -/
def IcxSliceFroBlock.new_out (icx : IntroFlowContext) (idx : Nat) :
    Option (IcxSliceFroBlock × IntroFlowContext) :=
  match icx.taint.pair_graph[idx]?, icx.var.pair_graph[idx]?,
        icx.len.pair_graph[idx]?, icx.ty.pair_graph[idx]?,
        icx.layout.pair_graph[idx]? with
  | some a, some b, some c, some d, some e =>
      some (⟨a.o, b.o, c.o, d.o, e.o⟩, icx)
  | _, _, _, _, _ => none

/-- Rust `IcxSliceFroBlock::new_for_block_0(len)`: the all-default initial
slice for the entry block. -/
def IcxSliceFroBlock.new_for_block_0 (len : Nat) : IcxSliceFroBlock where
  taint := List.replicate len default
  var := List.replicate len default
  len := List.replicate len 0
  ty := List.replicate len default
  layout := List.replicate len []

/-- Rust `IcxSliceFroBlock::taint_merge(&another, u)`.  Faithful to the Rust
control flow: the early return on `another` untainted happens before
`self`'s slot is read. -/
def IcxSliceFroBlock.taint_merge (s : IcxSliceFroBlock)
    (another : IcxSliceFroBlock) (u : Nat) : Option IcxSliceFroBlock :=
  match another.taint[u]? with
  | none => none
  | some ta =>
    if ta.is_untainted then
      some s
    else
      match s.taint[u]? with
      | none => none
      | some ts =>
        if ts.is_untainted then
          some { s with taint := s.taint.set u ta }
        else
          some { s with taint := s.taint.set u (ts.insertAll ta.set) }

/-- The process environment, as a map from variable name to value
(`env::var_os`). -/
abbrev Env := String → Option String

/-- Rust `is_z3_goal_verbose`: true exactly when `Z3_GOAL` is present. -/
def is_z3_goal_verbose (env : Env) : Bool :=
  match env ("Z3_GOAL") with
  | some _ => true
  | _ => false

/-- Rust `is_icx_slice_verbose`: true exactly when `ICX_SLICE` is present. -/
def is_icx_slice_verbose (env : Env) : Bool :=
  match env ("ICX_SLICE") with
  | some _ => true
  | _ => false

/-- Sizing of one `InOutPair`: both vectors have length `v`. -/
def InOutPair.sized {T : Type} (p : InOutPair T) (v : Nat) : Prop :=
  p.i.length = v ∧ p.o.length = v

instance {T : Type} (p : InOutPair T) (v : Nat) : Decidable (p.sized v) :=
  inferInstanceAs (Decidable (_ ∧ _))

/-- Sizing of one fact-kind's store: `b` blocks, all vectors length `v`. -/
def IOPairForGraph.sized {T : Type} (g : IOPairForGraph T) (b v : Nat) : Prop :=
  g.pair_graph.length = b ∧ ∀ p ∈ g.pair_graph, p.sized v

instance {T : Type} (g : IOPairForGraph T) (b v : Nat) :
    Decidable (g.sized b v) :=
  inferInstanceAs (Decidable (_ ∧ _))

/-- The store sizing invariant across all five fact-kinds. -/
def IntroFlowContext.sized (icx : IntroFlowContext) (b v : Nat) : Prop :=
  icx.taint.sized b v ∧ icx.var.sized b v ∧ icx.len.sized b v ∧
  icx.ty.sized b v ∧ icx.layout.sized b v

instance (icx : IntroFlowContext) (b v : Nat) : Decidable (icx.sized b v) :=
  inferInstanceAs (Decidable (_ ∧ _))

/-- Position of block `b` in the topological order (`List.indexOf`
ranks blocks absent from the order after every ranked block). -/
def topoRank (topo : List Nat) (b : Nat) : Nat := topo.indexOf b

/-- Visit order on predecessors: earlier topological position first,
ties resolved by earliest block id. -/
def predBefore (topo : List Nat) (a b : Nat) : Prop :=
  topoRank topo a < topoRank topo b ∨
    (topoRank topo a = topoRank topo b ∧ a ≤ b)

instance (topo : List Nat) (a b : Nat) : Decidable (predBefore topo a b) :=
  inferInstanceAs (Decidable (_ ∨ _))

/-- Insert one block into a predecessor list sorted by `predBefore`. -/
def predInsertSorted (topo : List Nat) (b : Nat) : List Nat → List Nat
  | [] => [b]
  | x :: xs =>
    if predBefore topo b x then b :: x :: xs else x :: predInsertSorted topo b xs

/-- Predecessors sorted into visit order: topological position first,
ties by earliest block id (insertion sort by `predBefore`). -/
def sortPreds (topo : List Nat) : List Nat → List Nat
  | [] => []
  | x :: xs => predInsertSorted topo x (sortPreds topo xs)

/-- Modelled from the spec: the multi-predecessor merge loop for the
non-taint facts lives in `intro_visitor.rs`, which is not part of the
analysed source.  Per §4.3 each such fact is "carried from one
predecessor chosen by traversal order"; operationally, predecessors are
visited in sorted order and each still-default slot of the entry vector
is filled from that predecessor's exit vector.  `exitOf p` is
predecessor `p`'s exit vector for the fact-kind being merged.
One visit of the merge loop: each still-default slot of the entry
vector `acc` is filled from predecessor `p`'s exit vector. -/
def joinStep (T : Type) [Inhabited T] [DecidableEq T] (exitOf : Nat → List T)
    (v_len : Nat) (acc : List T) (p : Nat) : List T :=
  (List.range v_len).map (fun u =>
    if acc.getD u default = default then (exitOf p).getD u default
    else acc.getD u default)

/-- Modelled from the spec (continued): the whole merge, visiting the
sorted predecessors in order starting from an all-default entry
vector. -/
def mergeFactAtJoin (T : Type) [Inhabited T] [DecidableEq T]
    (exitOf : Nat → List T) (topo preds : List Nat) (v_len : Nat) : List T :=
  (sortPreds topo preds).foldl (joinStep T exitOf v_len)
    (List.replicate v_len default)

/-- The spec's declarative description of the same merge: the exit value
of the first predecessor in visit order whose exit state for the
variable is non-default, and the default when there is none. -/
def firstNonDefaultExit (T : Type) [Inhabited T] [DecidableEq T]
    (exitOf : Nat → List T) (ps : List Nat) (u : Nat) : T :=
  match ps.find? (fun p => decide ((exitOf p).getD u default ≠ default)) with
  | some p => (exitOf p).getD u default
  | none => default

/-- Sizing of a working slice: all five vectors have length `v`. -/
def IcxSliceFroBlock.sized (s : IcxSliceFroBlock) (v : Nat) : Prop :=
  s.taint.length = v ∧ s.var.length = v ∧ s.len.length = v ∧
  s.ty.length = v ∧ s.layout.length = v

instance (s : IcxSliceFroBlock) (v : Nat) : Decidable (s.sized v) :=
  inferInstanceAs (Decidable (_ ∧ _))

/-- A concrete one-local working slice whose only local carries taint
label 0 (used to instantiate the theorems below). -/
def sliceA : IcxSliceFroBlock := ⟨[⟨[0]⟩], [none], [3], [some 1], [[]]⟩

/-- A concrete one-local working slice whose only local carries taint
label 1. -/
def sliceB : IcxSliceFroBlock := ⟨[⟨[1]⟩], [some 7], [5], [none], [[.unique]]⟩

/-- A concrete two-block, one-local store with distinguishable entries
(used to instantiate the theorems below). -/
def icxA : IntroFlowContext where
  taint := ⟨[⟨[⟨[0]⟩], [⟨[1]⟩]⟩, ⟨[⟨[]⟩], [⟨[2]⟩]⟩]⟩
  var := ⟨[⟨[none], [some 1]⟩, ⟨[some 2], [some 3]⟩]⟩
  len := ⟨[⟨[0], [1]⟩, ⟨[2], [3]⟩]⟩
  ty := ⟨[⟨[none], [some 4]⟩, ⟨[some 5], [none]⟩]⟩
  layout := ⟨[⟨[[]], [[.unique]]⟩, ⟨[[.shared]], [[.borrowed]]⟩]⟩

/-! ## Helper lemmas -/

theorem getElem?_getD {α : Type} [Inhabited α] (l : List α) (u : Nat)
    (h : u < l.length) : l[u]? = some (l.getD u default) := by
  rw [List.getElem?_eq_getElem h, List.getD_eq_getElem l default h]

theorem getD_of_getElem? {α : Type} [Inhabited α] {l : List α} {u : Nat}
    {x : α} (h : l[u]? = some x) : l.getD u default = x := by
  rcases List.getElem?_eq_some.mp h with ⟨hu, hx⟩
  rw [List.getD_eq_getElem l default hu, hx]

theorem length_of_getElem? {α : Type} {l : List α} {u : Nat} {x : α}
    (h : l[u]? = some x) : u < l.length :=
  (List.getElem?_eq_some.mp h).1

theorem getD_set_self {α : Type} [Inhabited α] (l : List α) (u : Nat) (x : α)
    (h : u < l.length) : (l.set u x).getD u default = x :=
  getD_of_getElem? (by rw [List.getElem?_set_self h])

theorem set_of_getElem? {α : Type} {l : List α} {u : Nat} {x : α}
    (h : l[u]? = some x) : l.set u x = l := by
  apply List.ext_getElem?
  intro n
  by_cases hn : n = u
  · subst hn
    rw [List.getElem?_set_self (length_of_getElem? h), h]
  · exact List.getElem?_set_ne (fun he => hn he.symm)

theorem getD_replicate {α : Type} [Inhabited α] (n u : Nat) (x : α)
    (h : u < n) :
    (List.replicate n x).getD u default = x :=
  getD_of_getElem? (by rw [List.getElem?_replicate]; simp [h])

theorem toFinset_list_insert (l : List Label) (a : Label) :
    (l.insert a).toFinset = insert a l.toFinset := by
  by_cases h : a ∈ l
  · rw [List.insert_of_mem h, Finset.insert_eq_self.mpr (List.mem_toFinset.mpr h)]
  · rw [List.insert_of_not_mem h, List.toFinset_cons]

theorem taint_insertAll_toFinset (t : Taint) (l : List Label) :
    (t.insertAll l).set.toFinset = t.set.toFinset ∪ l.toFinset := by
  induction l generalizing t with
  | nil => simp [Taint.insertAll]
  | cons a as ih =>
    have hstep : t.insertAll (a :: as) = (t.insert a).insertAll as := rfl
    rw [hstep, ih, List.toFinset_cons]
    have hins : (t.insert a).set.toFinset = insert a t.set.toFinset :=
      toFinset_list_insert t.set a
    rw [hins, Finset.insert_union, Finset.union_insert]

theorem taint_insertAll_of_mem (t : Taint) (l : List Label)
    (h : ∀ x ∈ l, x ∈ t.set) : t.insertAll l = t := by
  induction l generalizing t with
  | nil => rfl
  | cons a as ih =>
    have hstep : t.insertAll (a :: as) = (t.insert a).insertAll as := rfl
    have hins : t.insert a = t := by
      unfold Taint.insert
      rw [List.insert_of_mem (h a (List.mem_cons_self a as))]
    rw [hstep, hins]
    exact ih t (fun x hx => h x (List.mem_cons_of_mem a hx))

theorem taint_mem_insertAll (t : Taint) (l : List Label) (x : Label)
    (h : x ∈ t.set ∨ x ∈ l) : x ∈ (t.insertAll l).set := by
  have := taint_insertAll_toFinset t l
  have hx : x ∈ (t.insertAll l).set.toFinset := by
    rw [this, Finset.mem_union]
    rcases h with h | h
    · exact Or.inl (List.mem_toFinset.mpr h)
    · exact Or.inr (List.mem_toFinset.mpr h)
  exact List.mem_toFinset.mp hx

/-! ## Claim theorems -/

/-- C8: `new_for_block_0(len)` returns a slice whose five vectors each
have length `len`, with every taint entry empty (untainted), every
identity the default identity, every length fact zero, every symbolic
type the default type, and every ownership layout the empty sequence. -/
theorem new_for_block_0_all_default (n : Nat) :
    (IcxSliceFroBlock.new_for_block_0 n).sized n ∧
    ∀ u, u < n →
      ((IcxSliceFroBlock.new_for_block_0 n).taint.getD u default).is_untainted ∧
      (IcxSliceFroBlock.new_for_block_0 n).var.getD u default = default ∧
      (IcxSliceFroBlock.new_for_block_0 n).len.getD u default = 0 ∧
      (IcxSliceFroBlock.new_for_block_0 n).ty.getD u default = default ∧
      (IcxSliceFroBlock.new_for_block_0 n).layout.getD u default = [] := by
  constructor
  · refine ⟨?_, ?_, ?_, ?_, ?_⟩ <;>
      simp [IcxSliceFroBlock.new_for_block_0, IcxSliceFroBlock.sized]
  · intro u hu
    refine ⟨?_, ?_, ?_, ?_, ?_⟩
    · show ((List.replicate n (default : Taint)).getD u default).is_untainted
      rw [getD_replicate _ _ _ hu]
      rfl
    · exact getD_replicate _ _ _ hu
    · exact getD_replicate _ _ _ hu
    · exact getD_replicate _ _ _ hu
    · exact getD_replicate _ _ _ hu

/-- C8 witness: the initial slice for three locals, all-default at
index 1. -/
theorem new_for_block_0_all_default_witness :
    (1 : Nat) < 3 ∧
      (((IcxSliceFroBlock.new_for_block_0 3).taint.getD 1 default).is_untainted ∧
      (IcxSliceFroBlock.new_for_block_0 3).var.getD 1 default = default ∧
      (IcxSliceFroBlock.new_for_block_0 3).len.getD 1 default = 0 ∧
      (IcxSliceFroBlock.new_for_block_0 3).ty.getD 1 default = default ∧
      (IcxSliceFroBlock.new_for_block_0 3).layout.getD 1 default = []) :=
  ⟨by decide, (new_for_block_0_all_default 3).2 1 (by decide)⟩

/-- C9: `is_z3_goal_verbose` is true exactly when `Z3_GOAL` is present
(with any value), `is_icx_slice_verbose` exactly when `ICX_SLICE` is
present; each depends only on its own variable, and absence yields
false. -/
theorem verbosity_toggles (env : Env) :
    (is_z3_goal_verbose env = true ↔ (env ("Z3_GOAL")).isSome = true) ∧
    (is_icx_slice_verbose env = true ↔ (env ("ICX_SLICE")).isSome = true) ∧
    (env ("Z3_GOAL") = none → is_z3_goal_verbose env = false) ∧
    (env ("ICX_SLICE") = none → is_icx_slice_verbose env = false) ∧
    (∀ env2 : Env, env ("Z3_GOAL") = env2 ("Z3_GOAL") →
      is_z3_goal_verbose env = is_z3_goal_verbose env2) ∧
    (∀ env2 : Env, env ("ICX_SLICE") = env2 ("ICX_SLICE") →
      is_icx_slice_verbose env = is_icx_slice_verbose env2) := by
  refine ⟨?_, ?_, ?_, ?_, ?_, ?_⟩
  · unfold is_z3_goal_verbose
    cases env ("Z3_GOAL") <;> simp
  · unfold is_icx_slice_verbose
    cases env ("ICX_SLICE") <;> simp
  · intro h; unfold is_z3_goal_verbose; rw [h]
  · intro h; unfold is_icx_slice_verbose; rw [h]
  · intro env2 h; unfold is_z3_goal_verbose; rw [h]
  · intro env2 h; unfold is_icx_slice_verbose; rw [h]

/-- C9 witness: the empty environment disables both toggles. -/
theorem verbosity_toggles_witness :
    is_z3_goal_verbose (fun _ => none) = false ∧
    is_icx_slice_verbose (fun _ => none) = false :=
  ⟨(verbosity_toggles (fun _ => none)).2.2.1 rfl,
   (verbosity_toggles (fun _ => none)).2.2.2.1 rfl⟩

theorem deriveIn_spec {T : Type} (g : IOPairForGraph T) (f t : Nat)
    (hf : f < g.pair_graph.length) (ht : t < g.pair_graph.length) :
    ∃ g2, g.deriveIn f t = some g2 ∧ g2.inAt t = g.outAt f := by
  refine ⟨⟨g.pair_graph.set t { g.pair_graph[t] with i := (g.pair_graph[f]).o }⟩,
    ?_, ?_⟩
  · unfold IOPairForGraph.deriveIn
    rw [List.getElem?_eq_getElem hf, List.getElem?_eq_getElem ht]
  · unfold IOPairForGraph.inAt IOPairForGraph.outAt
    rw [getD_set_self _ _ _ ht, List.getD_eq_getElem _ default hf]

theorem derive_from_pre_node_eq_some {icx icx2 : IntroFlowContext}
    {f t : Nat} (h : icx.derive_from_pre_node f t = some icx2) :
    ∃ g1 g2 g3 g4 g5,
      icx.taint.deriveIn f t = some g1 ∧ icx.var.deriveIn f t = some g2 ∧
      icx.len.deriveIn f t = some g3 ∧ icx.ty.deriveIn f t = some g4 ∧
      icx.layout.deriveIn f t = some g5 ∧ icx2 = ⟨g1, g2, g3, g4, g5⟩ := by
  unfold IntroFlowContext.derive_from_pre_node at h
  simp only [Option.bind_eq_bind] at h
  rcases h1 : icx.taint.deriveIn f t with _ | g1 <;> rw [h1] at h
  · exact absurd h (by simp)
  simp only [Option.some_bind] at h
  rcases h2 : icx.var.deriveIn f t with _ | g2 <;> rw [h2] at h
  · exact absurd h (by simp)
  simp only [Option.some_bind] at h
  rcases h3 : icx.len.deriveIn f t with _ | g3 <;> rw [h3] at h
  · exact absurd h (by simp)
  simp only [Option.some_bind] at h
  rcases h4 : icx.ty.deriveIn f t with _ | g4 <;> rw [h4] at h
  · exact absurd h (by simp)
  simp only [Option.some_bind] at h
  rcases h5 : icx.layout.deriveIn f t with _ | g5 <;> rw [h5] at h
  · exact absurd h (by simp)
  simp only [Option.some_bind, Option.pure_def, Option.some.injEq] at h
  exact ⟨g1, g2, g3, g4, g5, rfl, rfl, rfl, rfl, rfl, h.symm⟩

/-- C2: for a store satisfying the sizing invariant and in-range block
ids `f` (from) and `t` (to), `derive_from_pre_node f t` succeeds and the
entry vector of block `t` afterwards equals the exit vector of block `f`
exactly, for each of the five tracked fact-kinds. -/
theorem derive_from_pre_node_passthrough (icx : IntroFlowContext)
    (b v f t : Nat) (hsz : icx.sized b v) (hf : f < b) (ht : t < b) :
    ∃ icx2, icx.derive_from_pre_node f t = some icx2 ∧
      icx2.taint.inAt t = icx.taint.outAt f ∧
      icx2.var.inAt t = icx.var.outAt f ∧
      icx2.len.inAt t = icx.len.outAt f ∧
      icx2.ty.inAt t = icx.ty.outAt f ∧
      icx2.layout.inAt t = icx.layout.outAt f := by
  obtain ⟨g1, e1, q1⟩ := deriveIn_spec icx.taint f t
    (by rw [hsz.1.1]; exact hf) (by rw [hsz.1.1]; exact ht)
  obtain ⟨g2, e2, q2⟩ := deriveIn_spec icx.var f t
    (by rw [hsz.2.1.1]; exact hf) (by rw [hsz.2.1.1]; exact ht)
  obtain ⟨g3, e3, q3⟩ := deriveIn_spec icx.len f t
    (by rw [hsz.2.2.1.1]; exact hf) (by rw [hsz.2.2.1.1]; exact ht)
  obtain ⟨g4, e4, q4⟩ := deriveIn_spec icx.ty f t
    (by rw [hsz.2.2.2.1.1]; exact hf) (by rw [hsz.2.2.2.1.1]; exact ht)
  obtain ⟨g5, e5, q5⟩ := deriveIn_spec icx.layout f t
    (by rw [hsz.2.2.2.2.1]; exact hf) (by rw [hsz.2.2.2.2.1]; exact ht)
  refine ⟨⟨g1, g2, g3, g4, g5⟩, ?_, q1, q2, q3, q4, q5⟩
  unfold IntroFlowContext.derive_from_pre_node
  rw [e1, e2, e3, e4, e5]
  rfl

/-- C2 witness: passthrough from block 0 to block 1 on a concrete
two-block store. -/
theorem derive_from_pre_node_passthrough_witness :
    icxA.sized 2 1 ∧ (0 : Nat) < 2 ∧ (1 : Nat) < 2 ∧
    ∃ icx2, icxA.derive_from_pre_node 0 1 = some icx2 ∧
      icx2.taint.inAt 1 = icxA.taint.outAt 0 ∧
      icx2.var.inAt 1 = icxA.var.outAt 0 ∧
      icx2.len.inAt 1 = icxA.len.outAt 0 ∧
      icx2.ty.inAt 1 = icxA.ty.outAt 0 ∧
      icx2.layout.inAt 1 = icxA.layout.outAt 0 :=
  ⟨by decide, by decide, by decide,
    derive_from_pre_node_passthrough icxA 2 1 0 1 (by decide) (by decide)
      (by decide)⟩

theorem writeOut_spec {T : Type} (g : IOPairForGraph T) (t : Nat)
    (v : List T) (ht : t < g.pair_graph.length) :
    ∃ g2, g.writeOut t v = some g2 ∧ g2.outAt t = v ∧ g2.inAt t = g.inAt t ∧
      ∀ b2, b2 ≠ t → g2.pair_graph[b2]? = g.pair_graph[b2]? := by
  refine ⟨⟨g.pair_graph.set t { g.pair_graph[t] with o := v }⟩, ?_, ?_, ?_, ?_⟩
  · unfold IOPairForGraph.writeOut
    rw [List.getElem?_eq_getElem ht]
  · unfold IOPairForGraph.outAt
    rw [getD_set_self _ _ _ ht]
  · unfold IOPairForGraph.inAt
    rw [getD_set_self _ _ _ ht, List.getD_eq_getElem _ default ht]
  · intro b2 hb2
    exact List.getElem?_set_ne (fun he => hb2 he.symm)

/-- C5: for a store satisfying the sizing invariant and an in-range
block id `t`, `derive_from_icx_slice from t` succeeds, the five exit
vectors of block `t` afterwards equal the five vectors of the slice, and
the entry vectors of block `t` as well as both rows of every other block
are unchanged. -/
theorem derive_from_icx_slice_writeback (icx : IntroFlowContext)
    (s : IcxSliceFroBlock) (b v t : Nat) (hsz : icx.sized b v) (ht : t < b) :
    ∃ icx2, icx.derive_from_icx_slice s t = some icx2 ∧
      (icx2.taint.outAt t = s.taint ∧ icx2.var.outAt t = s.var ∧
       icx2.len.outAt t = s.len ∧ icx2.ty.outAt t = s.ty ∧
       icx2.layout.outAt t = s.layout) ∧
      (icx2.taint.inAt t = icx.taint.inAt t ∧
       icx2.var.inAt t = icx.var.inAt t ∧
       icx2.len.inAt t = icx.len.inAt t ∧
       icx2.ty.inAt t = icx.ty.inAt t ∧
       icx2.layout.inAt t = icx.layout.inAt t) ∧
      ∀ b2, b2 ≠ t →
        icx2.taint.pair_graph[b2]? = icx.taint.pair_graph[b2]? ∧
        icx2.var.pair_graph[b2]? = icx.var.pair_graph[b2]? ∧
        icx2.len.pair_graph[b2]? = icx.len.pair_graph[b2]? ∧
        icx2.ty.pair_graph[b2]? = icx.ty.pair_graph[b2]? ∧
        icx2.layout.pair_graph[b2]? = icx.layout.pair_graph[b2]? := by
  obtain ⟨g1, e1, o1, i1, f1⟩ := writeOut_spec icx.taint t s.taint
    (by rw [hsz.1.1]; exact ht)
  obtain ⟨g2, e2, o2, i2, f2⟩ := writeOut_spec icx.var t s.var
    (by rw [hsz.2.1.1]; exact ht)
  obtain ⟨g3, e3, o3, i3, f3⟩ := writeOut_spec icx.len t s.len
    (by rw [hsz.2.2.1.1]; exact ht)
  obtain ⟨g4, e4, o4, i4, f4⟩ := writeOut_spec icx.ty t s.ty
    (by rw [hsz.2.2.2.1.1]; exact ht)
  obtain ⟨g5, e5, o5, i5, f5⟩ := writeOut_spec icx.layout t s.layout
    (by rw [hsz.2.2.2.2.1]; exact ht)
  refine ⟨⟨g1, g2, g3, g4, g5⟩, ?_, ⟨o1, o2, o3, o4, o5⟩,
    ⟨i1, i2, i3, i4, i5⟩,
    fun b2 hb2 => ⟨f1 b2 hb2, f2 b2 hb2, f3 b2 hb2, f4 b2 hb2, f5 b2 hb2⟩⟩
  unfold IntroFlowContext.derive_from_icx_slice
  rw [e1, e2, e3, e4, e5]
  rfl

/-- C5 witness: write a concrete slice back into block 1 of a concrete
two-block store. -/
theorem derive_from_icx_slice_writeback_witness :
    icxA.sized 2 1 ∧ (1 : Nat) < 2 ∧
    ∃ icx2, icxA.derive_from_icx_slice sliceA 1 = some icx2 ∧
      (icx2.taint.outAt 1 = sliceA.taint ∧ icx2.var.outAt 1 = sliceA.var ∧
       icx2.len.outAt 1 = sliceA.len ∧ icx2.ty.outAt 1 = sliceA.ty ∧
       icx2.layout.outAt 1 = sliceA.layout) ∧
      (icx2.taint.inAt 1 = icxA.taint.inAt 1 ∧
       icx2.var.inAt 1 = icxA.var.inAt 1 ∧
       icx2.len.inAt 1 = icxA.len.inAt 1 ∧
       icx2.ty.inAt 1 = icxA.ty.inAt 1 ∧
       icx2.layout.inAt 1 = icxA.layout.inAt 1) ∧
      ∀ b2, b2 ≠ 1 →
        icx2.taint.pair_graph[b2]? = icxA.taint.pair_graph[b2]? ∧
        icx2.var.pair_graph[b2]? = icxA.var.pair_graph[b2]? ∧
        icx2.len.pair_graph[b2]? = icxA.len.pair_graph[b2]? ∧
        icx2.ty.pair_graph[b2]? = icxA.ty.pair_graph[b2]? ∧
        icx2.layout.pair_graph[b2]? = icxA.layout.pair_graph[b2]? :=
  ⟨by decide, by decide,
    derive_from_icx_slice_writeback icxA sliceA 2 1 1 (by decide) (by decide)⟩

/-- C6: `new_in` (resp. `new_out`) returns the store unchanged together
with an owned copy of the entry (resp. exit) row of the requested block;
since the slice is a detached value, later mutation of it cannot touch
the store before an explicit `derive_from_icx_slice` write-back. -/
theorem new_in_new_out_isolation (icx : IntroFlowContext) (idx : Nat) :
    (∀ s icx2, IcxSliceFroBlock.new_in icx idx = some (s, icx2) →
      icx2 = icx ∧ s.taint = icx.taint.inAt idx ∧ s.var = icx.var.inAt idx ∧
      s.len = icx.len.inAt idx ∧ s.ty = icx.ty.inAt idx ∧
      s.layout = icx.layout.inAt idx) ∧
    (∀ s icx2, IcxSliceFroBlock.new_out icx idx = some (s, icx2) →
      icx2 = icx ∧ s.taint = icx.taint.outAt idx ∧
      s.var = icx.var.outAt idx ∧ s.len = icx.len.outAt idx ∧
      s.ty = icx.ty.outAt idx ∧ s.layout = icx.layout.outAt idx) := by
  constructor
  · intro s icx2 h
    unfold IcxSliceFroBlock.new_in at h
    rcases h1 : icx.taint.pair_graph[idx]? with _ | a <;> rw [h1] at h
    · exact absurd h (by simp)
    rcases h2 : icx.var.pair_graph[idx]? with _ | b2 <;> rw [h2] at h
    · exact absurd h (by simp)
    rcases h3 : icx.len.pair_graph[idx]? with _ | c <;> rw [h3] at h
    · exact absurd h (by simp)
    rcases h4 : icx.ty.pair_graph[idx]? with _ | d <;> rw [h4] at h
    · exact absurd h (by simp)
    rcases h5 : icx.layout.pair_graph[idx]? with _ | e <;> rw [h5] at h
    · exact absurd h (by simp)
    simp only [Option.some.injEq, Prod.mk.injEq] at h
    obtain ⟨hs, hicx⟩ := h
    subst hicx
    refine ⟨rfl, ?_, ?_, ?_, ?_, ?_⟩ <;> rw [← hs] <;>
      simp only [IOPairForGraph.inAt, getD_of_getElem? h1, getD_of_getElem? h2,
        getD_of_getElem? h3, getD_of_getElem? h4, getD_of_getElem? h5]
  · intro s icx2 h
    unfold IcxSliceFroBlock.new_out at h
    rcases h1 : icx.taint.pair_graph[idx]? with _ | a <;> rw [h1] at h
    · exact absurd h (by simp)
    rcases h2 : icx.var.pair_graph[idx]? with _ | b2 <;> rw [h2] at h
    · exact absurd h (by simp)
    rcases h3 : icx.len.pair_graph[idx]? with _ | c <;> rw [h3] at h
    · exact absurd h (by simp)
    rcases h4 : icx.ty.pair_graph[idx]? with _ | d <;> rw [h4] at h
    · exact absurd h (by simp)
    rcases h5 : icx.layout.pair_graph[idx]? with _ | e <;> rw [h5] at h
    · exact absurd h (by simp)
    simp only [Option.some.injEq, Prod.mk.injEq] at h
    obtain ⟨hs, hicx⟩ := h
    subst hicx
    refine ⟨rfl, ?_, ?_, ?_, ?_, ?_⟩ <;> rw [← hs] <;>
      simp only [IOPairForGraph.outAt, getD_of_getElem? h1, getD_of_getElem? h2,
        getD_of_getElem? h3, getD_of_getElem? h4, getD_of_getElem? h5]

/-- C6 witness: constructing the entry slice of block 0 of a concrete
store returns that store unchanged and block 0's entry row. -/
theorem new_in_new_out_isolation_witness :
    IcxSliceFroBlock.new_in icxA 0 =
      some (⟨[⟨[0]⟩], [none], [0], [none], [[]]⟩, icxA) ∧
    ((⟨[⟨[0]⟩], [none], [0], [none], [[]]⟩ : IcxSliceFroBlock).taint
        = icxA.taint.inAt 0 ∧ icxA = icxA) :=
  ⟨by decide,
    ((new_in_new_out_isolation icxA 0).1 ⟨[⟨[0]⟩], [none], [0], [none], [[]]⟩
      icxA (by decide)).2.1, rfl⟩

theorem mem_of_getElem?_eq_some {α : Type} {l : List α} {i : Nat} {x : α}
    (h : l[i]? = some x) : x ∈ l := by
  rcases List.getElem?_eq_some.mp h with ⟨hi, hx⟩
  rw [← hx]
  exact List.getElem_mem hi

theorem IOPairForGraph_new_sized (T : Type) [Inhabited T] (b v : Nat) :
    (IOPairForGraph.new T b v).sized b v := by
  constructor
  · simp [IOPairForGraph.new]
  · intro p hp
    have hp2 := List.eq_of_mem_replicate hp
    subst hp2
    constructor <;> simp [InOutPair.new]

theorem deriveIn_sized {T : Type} {g g2 : IOPairForGraph T} {f t b v : Nat}
    (hsz : g.sized b v) (h : g.deriveIn f t = some g2) : g2.sized b v := by
  unfold IOPairForGraph.deriveIn at h
  rcases h1 : g.pair_graph[f]? with _ | pf <;> rw [h1] at h
  · exact absurd h (by simp)
  rcases h2 : g.pair_graph[t]? with _ | pt <;> rw [h2] at h
  · exact absurd h (by simp)
  simp only [Option.some.injEq] at h
  subst h
  constructor
  · simp only [List.length_set]
    exact hsz.1
  · intro p hp
    rcases List.mem_or_eq_of_mem_set hp with hmem | heq
    · exact hsz.2 p hmem
    · subst heq
      exact ⟨(hsz.2 pf (mem_of_getElem?_eq_some h1)).2,
             (hsz.2 pt (mem_of_getElem?_eq_some h2)).2⟩

theorem writeOut_sized {T : Type} {g g2 : IOPairForGraph T} {t b v : Nat}
    {w : List T} (hsz : g.sized b v) (hw : w.length = v)
    (h : g.writeOut t w = some g2) : g2.sized b v := by
  unfold IOPairForGraph.writeOut at h
  rcases h1 : g.pair_graph[t]? with _ | pt <;> rw [h1] at h
  · exact absurd h (by simp)
  simp only [Option.some.injEq] at h
  subst h
  constructor
  · simp only [List.length_set]
    exact hsz.1
  · intro p hp
    rcases List.mem_or_eq_of_mem_set hp with hmem | heq
    · exact hsz.2 p hmem
    · subst heq
      exact ⟨(hsz.2 pt (mem_of_getElem?_eq_some h1)).1, hw⟩

theorem derive_from_icx_slice_eq_some {icx icx2 : IntroFlowContext}
    {s : IcxSliceFroBlock} {t : Nat}
    (h : icx.derive_from_icx_slice s t = some icx2) :
    ∃ g1 g2 g3 g4 g5,
      icx.taint.writeOut t s.taint = some g1 ∧
      icx.var.writeOut t s.var = some g2 ∧
      icx.len.writeOut t s.len = some g3 ∧
      icx.ty.writeOut t s.ty = some g4 ∧
      icx.layout.writeOut t s.layout = some g5 ∧
      icx2 = ⟨g1, g2, g3, g4, g5⟩ := by
  unfold IntroFlowContext.derive_from_icx_slice at h
  simp only [Option.bind_eq_bind] at h
  rcases h1 : icx.taint.writeOut t s.taint with _ | g1 <;> rw [h1] at h
  · exact absurd h (by simp)
  simp only [Option.some_bind] at h
  rcases h2 : icx.var.writeOut t s.var with _ | g2 <;> rw [h2] at h
  · exact absurd h (by simp)
  simp only [Option.some_bind] at h
  rcases h3 : icx.len.writeOut t s.len with _ | g3 <;> rw [h3] at h
  · exact absurd h (by simp)
  simp only [Option.some_bind] at h
  rcases h4 : icx.ty.writeOut t s.ty with _ | g4 <;> rw [h4] at h
  · exact absurd h (by simp)
  simp only [Option.some_bind] at h
  rcases h5 : icx.layout.writeOut t s.layout with _ | g5 <;> rw [h5] at h
  · exact absurd h (by simp)
  simp only [Option.some_bind, Option.pure_def, Option.some.injEq] at h
  exact ⟨g1, g2, g3, g4, g5, rfl, rfl, rfl, rfl, rfl, h.symm⟩

/-- C7: `IntroFlowContext::new(b_len, v_len)` produces, for each of the
five fact-kinds, exactly `b_len` blocks whose entry and exit vectors
both have length `v_len`; and this sizing invariant is preserved by
`derive_from_pre_node`, and by `derive_from_icx_slice` whenever the
written slice's vectors have length `v_len`. -/
theorem store_sizing_invariant :
    (∀ b v : Nat, (IntroFlowContext.new b v).sized b v) ∧
    (∀ (icx icx2 : IntroFlowContext) (b v f t : Nat), icx.sized b v →
      icx.derive_from_pre_node f t = some icx2 → icx2.sized b v) ∧
    (∀ (icx icx2 : IntroFlowContext) (s : IcxSliceFroBlock) (b v t : Nat),
      icx.sized b v → s.sized v →
      icx.derive_from_icx_slice s t = some icx2 → icx2.sized b v) := by
  refine ⟨?_, ?_, ?_⟩
  · intro b v
    exact ⟨IOPairForGraph_new_sized Taint b v,
      IOPairForGraph_new_sized IntroVar b v, IOPairForGraph_new_sized Nat b v,
      IOPairForGraph_new_sized TyWithIndex b v,
      IOPairForGraph_new_sized OwnershipLayout b v⟩
  · intro icx icx2 b v f t hsz h
    obtain ⟨g1, g2, g3, g4, g5, e1, e2, e3, e4, e5, rfl⟩ :=
      derive_from_pre_node_eq_some h
    exact ⟨deriveIn_sized hsz.1 e1, deriveIn_sized hsz.2.1 e2,
      deriveIn_sized hsz.2.2.1 e3, deriveIn_sized hsz.2.2.2.1 e4,
      deriveIn_sized hsz.2.2.2.2 e5⟩
  · intro icx icx2 s b v t hsz hs h
    obtain ⟨g1, g2, g3, g4, g5, e1, e2, e3, e4, e5, rfl⟩ :=
      derive_from_icx_slice_eq_some h
    exact ⟨writeOut_sized hsz.1 hs.1 e1, writeOut_sized hsz.2.1 hs.2.1 e2,
      writeOut_sized hsz.2.2.1 hs.2.2.1 e3,
      writeOut_sized hsz.2.2.2.1 hs.2.2.2.1 e4,
      writeOut_sized hsz.2.2.2.2 hs.2.2.2.2 e5⟩

/-- C7 witness: the fresh two-block one-local store is well-sized, and
both operations preserve sizing on concrete inputs. -/
theorem store_sizing_invariant_witness :
    (IntroFlowContext.new 2 1).sized 2 1 ∧
    (icxA.sized 2 1 ∧
      ∀ icx2, icxA.derive_from_pre_node 0 1 = some icx2 → icx2.sized 2 1) ∧
    (sliceA.sized 1 ∧
      ∀ icx2, icxA.derive_from_icx_slice sliceA 1 = some icx2 →
        icx2.sized 2 1) :=
  ⟨store_sizing_invariant.1 2 1,
    ⟨by decide, fun icx2 h =>
      store_sizing_invariant.2.1 icxA icx2 2 1 0 1 (by decide) h⟩,
    ⟨by decide, fun icx2 h =>
      store_sizing_invariant.2.2 icxA icx2 sliceA 2 1 1 (by decide)
        (by decide) h⟩⟩

theorem taint_merge_eq (s a : IcxSliceFroBlock) (u : Nat)
    (hs : u < s.taint.length) (ha : u < a.taint.length) :
    s.taint_merge a u = some (
      if (a.taint.getD u default).is_untainted then s
      else if (s.taint.getD u default).is_untainted then
        { s with taint := s.taint.set u (a.taint.getD u default) }
      else
        { s with taint := s.taint.set u
                            ((s.taint.getD u default).insertAll
                              (a.taint.getD u default).set) }) := by
  unfold IcxSliceFroBlock.taint_merge
  simp only [getElem?_getD _ _ ha, getElem?_getD _ _ hs]
  by_cases hat : (a.taint[u]?.getD default).is_untainted
  · simp [hat]
  · by_cases hst : (s.taint[u]?.getD default).is_untainted
    · simp [hat, hst]
    · simp [hat, hst]

theorem taint_union_conseq (ts ta tr : Taint)
    (hu : tr.set.toFinset = ts.set.toFinset ∪ ta.set.toFinset) :
    ts.set.toFinset ⊆ tr.set.toFinset ∧
    ta.set.toFinset ⊆ tr.set.toFinset ∧
    (tr.is_untainted ↔ ts.is_untainted ∧ ta.is_untainted) ∧
    ∀ L : Label, ta.set.toFinset = {L} → ts.is_untainted →
      tr.set.toFinset = {L} := by
  refine ⟨?_, ?_, ?_, ?_⟩
  · rw [hu]; exact Finset.subset_union_left
  · rw [hu]; exact Finset.subset_union_right
  · unfold Taint.is_untainted
    constructor
    · intro h
      have h0 : tr.set.toFinset = ∅ := by rw [h]; rfl
      rw [hu] at h0
      rcases Finset.union_eq_empty.mp h0 with ⟨h1, h2⟩
      exact ⟨by simpa using h1, by simpa using h2⟩
    · rintro ⟨h1, h2⟩
      have h0 : tr.set.toFinset = ∅ := by rw [hu, h1, h2]; simp
      simpa using h0
  · intro L hL hts
    rw [hu, hL, hts]
    simp

/-- C1: merging taint at a join point computes set union and never
drops a label: after `s.taint_merge(a, u)` (with `u` within both
slices' bounds) the taint set of `s` at `u` is the union of the old
taint sets of `s` at `u` and of `a` at `u`; it is a superset of each,
untainted exactly when both inputs were untainted, and when `a` carries
exactly `{L}` and `s` was untainted the result is exactly `{L}`. -/
theorem taint_merge_union (s a : IcxSliceFroBlock) (u : Nat)
    (hs : u < s.taint.length) (ha : u < a.taint.length) :
    ∃ s2, s.taint_merge a u = some s2 ∧
      (s2.taint.getD u default).set.toFinset
        = (s.taint.getD u default).set.toFinset
            ∪ (a.taint.getD u default).set.toFinset ∧
      (s.taint.getD u default).set.toFinset
        ⊆ (s2.taint.getD u default).set.toFinset ∧
      (a.taint.getD u default).set.toFinset
        ⊆ (s2.taint.getD u default).set.toFinset ∧
      ((s2.taint.getD u default).is_untainted ↔
        (s.taint.getD u default).is_untainted ∧
        (a.taint.getD u default).is_untainted) ∧
      ∀ L : Label, (a.taint.getD u default).set.toFinset = {L} →
        (s.taint.getD u default).is_untainted →
        (s2.taint.getD u default).set.toFinset = {L} := by
  have hmerge := taint_merge_eq s a u hs ha
  by_cases hat : (a.taint.getD u default).is_untainted
  · refine ⟨s, by rw [hmerge, if_pos hat], ?_⟩
    have hu : (s.taint.getD u default).set.toFinset
        = (s.taint.getD u default).set.toFinset
            ∪ (a.taint.getD u default).set.toFinset := by
      rw [hat]; simp
    exact ⟨hu, taint_union_conseq _ _ _ hu⟩
  · by_cases hst : (s.taint.getD u default).is_untainted
    · refine ⟨{ s with taint := s.taint.set u (a.taint.getD u default) },
        by rw [hmerge, if_neg hat, if_pos hst], ?_⟩
      have hslot : (s.taint.set u (a.taint.getD u default)).getD u default
          = a.taint.getD u default := getD_set_self _ _ _ hs
      have hu : ((s.taint.set u (a.taint.getD u default)).getD
            u default).set.toFinset
          = (s.taint.getD u default).set.toFinset
              ∪ (a.taint.getD u default).set.toFinset := by
        rw [hslot, hst]; simp
      exact ⟨hu, taint_union_conseq _ _ _ hu⟩
    · refine ⟨{ s with taint := s.taint.set u
                            ((s.taint.getD u default).insertAll
                              (a.taint.getD u default).set) },
        by rw [hmerge, if_neg hat, if_neg hst], ?_⟩
      have hslot : (s.taint.set u ((s.taint.getD u default).insertAll
            (a.taint.getD u default).set)).getD u default
          = (s.taint.getD u default).insertAll
              (a.taint.getD u default).set := getD_set_self _ _ _ hs
      have hu : ((s.taint.set u ((s.taint.getD u default).insertAll
            (a.taint.getD u default).set)).getD u default).set.toFinset
          = (s.taint.getD u default).set.toFinset
              ∪ (a.taint.getD u default).set.toFinset := by
        rw [hslot, taint_insertAll_toFinset]
      exact ⟨hu, taint_union_conseq _ _ _ hu⟩

/-- C1 witness: merging the `{1}`-tainted local of `sliceB` into the
`{0}`-tainted local of `sliceA` at index 0. -/
theorem taint_merge_union_witness :
    (0 : Nat) < sliceA.taint.length ∧ (0 : Nat) < sliceB.taint.length ∧
    ∃ s2, sliceA.taint_merge sliceB 0 = some s2 ∧
      (s2.taint.getD 0 default).set.toFinset
        = (sliceA.taint.getD 0 default).set.toFinset
            ∪ (sliceB.taint.getD 0 default).set.toFinset ∧
      (sliceA.taint.getD 0 default).set.toFinset
        ⊆ (s2.taint.getD 0 default).set.toFinset ∧
      (sliceB.taint.getD 0 default).set.toFinset
        ⊆ (s2.taint.getD 0 default).set.toFinset ∧
      ((s2.taint.getD 0 default).is_untainted ↔
        (sliceA.taint.getD 0 default).is_untainted ∧
        (sliceB.taint.getD 0 default).is_untainted) ∧
      ∀ L : Label, (sliceB.taint.getD 0 default).set.toFinset = {L} →
        (sliceA.taint.getD 0 default).is_untainted →
        (s2.taint.getD 0 default).set.toFinset = {L} :=
  ⟨by decide, by decide, taint_merge_union sliceA sliceB 0 (by decide)
    (by decide)⟩

theorem taint_merge_eq_untainted (s a : IcxSliceFroBlock) (u : Nat)
    (ha : u < a.taint.length)
    (hat : (a.taint.getD u default).is_untainted) :
    s.taint_merge a u = some s := by
  have hat2 : (a.taint[u]?.getD default).is_untainted := by
    rw [← List.getD_eq_getElem?_getD]
    exact hat
  unfold IcxSliceFroBlock.taint_merge
  simp only [getElem?_getD _ _ ha]
  simp [hat2]

theorem taint_merge_eq_none_left (s a : IcxSliceFroBlock) (u : Nat)
    (ha : ¬u < a.taint.length) :
    s.taint_merge a u = none := by
  unfold IcxSliceFroBlock.taint_merge
  rw [List.getElem?_eq_none (Nat.le_of_not_lt ha)]

theorem taint_merge_eq_none_right (s a : IcxSliceFroBlock) (u : Nat)
    (ha : u < a.taint.length)
    (hat : ¬(a.taint.getD u default).is_untainted)
    (hs : ¬u < s.taint.length) :
    s.taint_merge a u = none := by
  have hat2 : ¬(a.taint[u]?.getD default).is_untainted := by
    rw [← List.getD_eq_getElem?_getD]
    exact hat
  unfold IcxSliceFroBlock.taint_merge
  simp only [getElem?_getD _ _ ha]
  simp [hat2, List.getElem?_eq_none (Nat.le_of_not_lt hs)]

theorem taint_merge_no_op (s2 a : IcxSliceFroBlock) (u : Nat)
    (hb : u < s2.taint.length) (ha : u < a.taint.length)
    (hsub : ∀ e ∈ (a.taint.getD u default).set,
      e ∈ (s2.taint.getD u default).set)
    (hne : ¬(s2.taint.getD u default).is_untainted ∨
      (a.taint.getD u default).is_untainted) :
    s2.taint_merge a u = some s2 := by
  rw [taint_merge_eq s2 a u hb ha]
  by_cases hat : (a.taint.getD u default).is_untainted
  · rw [if_pos hat]
  · have hst : ¬(s2.taint.getD u default).is_untainted := by
      rcases hne with h1 | h2
      · exact h1
      · exact absurd h2 hat
    rw [if_neg hat, if_neg hst, taint_insertAll_of_mem _ _ hsub,
      set_of_getElem? (getElem?_getD _ _ hb)]

/-- C4: merge idempotence.  Merging a copy of `s` into `s` at an
in-range index `u` returns `s` unchanged, and a second `taint_merge`
with the same argument returns its input unchanged (a fixed point is
reached after one application). -/
theorem taint_merge_idempotent (s a : IcxSliceFroBlock) (u : Nat)
    (hu : u < s.taint.length) :
    s.taint_merge s u = some s ∧
    ∀ s2, s.taint_merge a u = some s2 → s2.taint_merge a u = some s2 := by
  constructor
  · refine taint_merge_no_op s s u hu hu (fun e he => he) ?_
    by_cases hst : (s.taint.getD u default).is_untainted
    · exact Or.inr hst
    · exact Or.inl hst
  · intro s2 h
    by_cases ha : u < a.taint.length
    · by_cases hat : (a.taint.getD u default).is_untainted
      · rw [taint_merge_eq_untainted s a u ha hat] at h
        simp only [Option.some.injEq] at h
        subst h
        exact taint_merge_eq_untainted s a u ha hat
      · rw [taint_merge_eq s a u hu ha] at h
        simp only [if_neg hat, Option.some.injEq] at h
        subst h
        by_cases hst : (s.taint.getD u default).is_untainted
        · simp only [if_pos hst]
          refine taint_merge_no_op _ a u (by simpa using hu) ha ?_ ?_
          · intro e he
            simp only [getD_set_self _ _ _ hu]
            exact he
          · left
            simp only [getD_set_self _ _ _ hu]
            exact hat
        · simp only [if_neg hst]
          refine taint_merge_no_op _ a u (by simpa using hu) ha ?_ ?_
          · intro e he
            simp only [getD_set_self _ _ _ hu]
            exact taint_mem_insertAll _ _ e (Or.inr he)
          · left
            simp only [getD_set_self _ _ _ hu]
            intro hcon
            have hcon2 : ((s.taint.getD u default).insertAll
                (a.taint.getD u default).set).set = [] := hcon
            have hane : (a.taint.getD u default).set ≠ [] := hat
            rcases List.exists_mem_of_ne_nil _ hane with ⟨e, he⟩
            have hin : e ∈ ((s.taint.getD u default).insertAll
                (a.taint.getD u default).set).set :=
              taint_mem_insertAll _ _ e (Or.inr he)
            rw [hcon2] at hin
            exact absurd hin (List.not_mem_nil e)
    · rw [taint_merge_eq_none_left s a u ha] at h
      exact absurd h (by simp)

/-- C4 witness: merging `sliceA` into itself at index 0 is a no-op, and
re-merging `sliceB` after a first merge changes nothing. -/
theorem taint_merge_idempotent_witness :
    sliceA.taint_merge sliceA 0 = some sliceA ∧
    ∀ s2, sliceA.taint_merge sliceB 0 = some s2 →
      s2.taint_merge sliceB 0 = some s2 :=
  taint_merge_idempotent sliceA sliceB 0 (by decide)

/-- C10: `taint_merge` is frame-local.  When `s.taint_merge(a, u)`
succeeds, only the taint entry at index `u` can change: every other
taint entry, the taint vector's length, and the other four fact vectors
of `s` are unchanged.  (The argument slice `a` is behind an immutable
borrow in the source and is passed by value here, so it is unchanged by
construction.) -/
theorem taint_merge_frame (s a s2 : IcxSliceFroBlock) (u : Nat)
    (h : s.taint_merge a u = some s2) :
    s2.var = s.var ∧ s2.len = s.len ∧ s2.ty = s.ty ∧ s2.layout = s.layout ∧
    s2.taint.length = s.taint.length ∧
    ∀ v2, v2 ≠ u → s2.taint[v2]? = s.taint[v2]? := by
  by_cases ha : u < a.taint.length
  · by_cases hat : (a.taint.getD u default).is_untainted
    · rw [taint_merge_eq_untainted s a u ha hat] at h
      simp only [Option.some.injEq] at h
      subst h
      exact ⟨rfl, rfl, rfl, rfl, rfl, fun v2 _ => rfl⟩
    · by_cases hs : u < s.taint.length
      · rw [taint_merge_eq s a u hs ha] at h
        simp only [if_neg hat, Option.some.injEq] at h
        subst h
        by_cases hst : (s.taint.getD u default).is_untainted
        · rw [if_pos hst]
          exact ⟨rfl, rfl, rfl, rfl, by simp,
            fun v2 hv2 => List.getElem?_set_ne (Ne.symm hv2)⟩
        · rw [if_neg hst]
          exact ⟨rfl, rfl, rfl, rfl, by simp,
            fun v2 hv2 => List.getElem?_set_ne (Ne.symm hv2)⟩
      · rw [taint_merge_eq_none_right s a u ha hat hs] at h
        exact absurd h (by simp)
  · rw [taint_merge_eq_none_left s a u ha] at h
    exact absurd h (by simp)

/-- C10 witness: merging `sliceB` into `sliceA` at index 0 concretely
leaves the four non-taint vectors untouched. -/
theorem taint_merge_frame_witness :
    sliceA.taint_merge sliceB 0
        = some ⟨[⟨[1, 0]⟩], [none], [3], [some 1], [[]]⟩ ∧
    ((⟨[⟨[1, 0]⟩], [none], [3], [some 1], [[]]⟩ : IcxSliceFroBlock).var
        = sliceA.var ∧
     (⟨[⟨[1, 0]⟩], [none], [3], [some 1], [[]]⟩ : IcxSliceFroBlock).len
        = sliceA.len) :=
  ⟨by decide,
    (taint_merge_frame sliceA sliceB _ 0 (by decide)).1,
    (taint_merge_frame sliceA sliceB _ 0 (by decide)).2.1⟩

theorem joinStep_length (T : Type) [Inhabited T] [DecidableEq T]
    (exitOf : Nat → List T) (v : Nat) (acc : List T) (p : Nat) :
    (joinStep T exitOf v acc p).length = v := by
  simp [joinStep]

theorem joinStep_getD (T : Type) [Inhabited T] [DecidableEq T]
    (exitOf : Nat → List T) (v : Nat) (acc : List T) (p : Nat) (u : Nat)
    (hu : u < v) :
    (joinStep T exitOf v acc p).getD u default
      = if acc.getD u default = default then (exitOf p).getD u default
        else acc.getD u default := by
  unfold joinStep
  rw [List.getD_eq_getElem _ default (by simpa using hu)]
  simp

theorem mergeFact_foldl_getD (T : Type) [Inhabited T] [DecidableEq T]
    (exitOf : Nat → List T) (v : Nat) (ps : List Nat) (acc : List T)
    (hacc : acc.length = v) (u : Nat) (hu : u < v) :
    (ps.foldl (joinStep T exitOf v) acc).getD u default
      = if acc.getD u default = default then firstNonDefaultExit T exitOf ps u
        else acc.getD u default := by
  induction ps generalizing acc with
  | nil =>
    simp only [List.foldl_nil]
    by_cases hd : acc.getD u default = default
    · rw [if_pos hd, hd]
      rfl
    · rw [if_neg hd]
  | cons p ps ih =>
    have hstep : (p :: ps).foldl (joinStep T exitOf v) acc
        = ps.foldl (joinStep T exitOf v) (joinStep T exitOf v acc p) := rfl
    rw [hstep, ih (joinStep T exitOf v acc p) (joinStep_length T exitOf v acc p),
      joinStep_getD T exitOf v acc p u hu]
    by_cases hd : acc.getD u default = default
    · rw [if_pos hd, if_pos hd]
      by_cases he : (exitOf p).getD u default = default
      · rw [if_pos he]
        unfold firstNonDefaultExit
        rw [List.find?_cons_of_neg _ (by simpa using he)]
      · rw [if_neg he]
        have hfind : firstNonDefaultExit T exitOf (p :: ps) u
            = (exitOf p).getD u default := by
          unfold firstNonDefaultExit
          rw [List.find?_cons_of_pos _ (by simpa using he)]
        rw [hfind]
    · rw [if_neg hd, if_neg hd, if_neg hd]

/-- C3: at a multi-predecessor join, the merged entry value of a
non-taint fact for local `u` equals the exit value of the first
predecessor in visit order (topological position, ties by earliest
block id) whose exit state for `u` is non-default — the declarative
`firstNonDefaultExit` reading of the operational merge loop. -/
theorem merge_non_taint_first_non_default (T : Type) [Inhabited T]
    [DecidableEq T] (exitOf : Nat → List T) (topo preds : List Nat)
    (v_len u : Nat) (hu : u < v_len) :
    (mergeFactAtJoin T exitOf topo preds v_len).getD u default
      = firstNonDefaultExit T exitOf (sortPreds topo preds) u := by
  unfold mergeFactAtJoin
  rw [mergeFact_foldl_getD T exitOf v_len (sortPreds topo preds)
    (List.replicate v_len default) (by simp) u hu]
  rw [if_pos (getD_replicate _ _ _ hu)]

/-- C3 witness: two predecessors `0` and `1` of a join, visited in the
topological order `[1, 0]`; predecessor `1` is the first whose exit
value (7) is non-default, and the merged entry picks exactly it. -/
theorem merge_non_taint_first_non_default_witness :
    (0 : Nat) < 1 ∧
    (mergeFactAtJoin Nat (fun p => if p = 0 then [0] else [7]) [1, 0]
        [0, 1] 1).getD 0 default
      = firstNonDefaultExit Nat (fun p => if p = 0 then [0] else [7])
          (sortPreds [1, 0] [0, 1]) 0 ∧
    (mergeFactAtJoin Nat (fun p => if p = 0 then [0] else [7]) [1, 0]
        [0, 1] 1).getD 0 default = 7 :=
  ⟨by decide,
    merge_non_taint_first_non_default Nat
      (fun p => if p = 0 then [0] else [7]) [1, 0] [0, 1] 1 0 (by decide),
    by decide⟩

end FlowAnalysis
